import Mathlib

/-!
Verification of the mbot-rest leaderboard/weather service.

Shallow embedding of the two source files:
  * `restapi.py`   — timestamp codec (`ts_parse`), JSON loading
    (`read_json_dict`), nearest-weather search (`weather_find`) and the
    `/leaders/timerange` endpoint (`leaders_timerange`).
  * `tools/update_leaderboard.py` — composite keys
    (`make_composite_key`) and the batch-merge / atomic-persist run.

Modelling conventions:
  * Python `dict` objects are association lists with unique keys
    (`dictGet` is `d[k]` / `d.get(k)`, `dictInsert` is `d[k] = v`,
    which replaces in place like a Python dict assignment).
  * JSON scalar values are the inductive `Val`; `pyStr` is Python
    `str()` on them.
  * `datetime.strptime` with the three formats of `ts_formats` is
    embedded as `strptimeSuffix`: all three formats share the
    directive prefix `%Y-%m-%dT%H:%M:%S` (embedded as `parseCoreDT`,
    reproducing the regexes CPython's `_strptime` builds for
    `%Y %m %d %H %M %S` and its case-insensitive literal matching)
    and differ only in the literal suffix (`"+00:00"`, `"Z"`, `""`).
    `\d` is modelled as an ASCII decimal digit.
  * `datetime` values are zone-naive `DateTime` records; Python's
    chronological comparison and `timedelta` distance are modelled
    through `toSec` (seconds since 0001-01-01, proleptic Gregorian),
    which agrees with Python's component-wise order on the
    calendar-valid values `strptime` can produce.
  * Exceptions are `Except PyErr`; an uncaught `TypeError`/`KeyError`
    aborts a request, `InvalidUsage` is the 400 error of the API.
-/

/-- ASCII decimal digit, the characters matched by `\d` here. -/
def isDig (c : Char) : Bool := 48 ≤ c.toNat && c.toNat ≤ 57

/-- Numeric value of a digit character. -/
def dval (c : Char) : Nat := c.toNat - 48

/-- Literal character in a `strptime` format: CPython compiles the
format with `re.IGNORECASE`, so literal letters match either case. -/
def litP (c : Char) : List Char → Option (List Char)
  | [] => none
  | h :: t => if h.toLower = c.toLower then some t else none

/-- `%Y`: CPython's `_strptime` regex is exactly four digits. -/
def yearP : List Char → Option (Nat × List Char)
  | c1 :: c2 :: c3 :: c4 :: r =>
    if isDig c1 && isDig c2 && isDig c3 && isDig c4 then
      some (((dval c1 * 10 + dval c2) * 10 + dval c3) * 10 + dval c4, r)
    else none
  | _ => none

/-- One-or-two-digit numeric directive (`%m`, `%d`, `%H`, `%M`, `%S`).
CPython's regexes (`1[0-2]|0[1-9]|[1-9]` for `%m`, etc.) prefer the
two-digit alternative and accept a lone digit otherwise; since in every
format of `ts_formats` the directive is followed by a non-digit literal
or the end of input, the regex backtracking resolves to: take two
digits when two are available (failing if the value is out of
`[mn, mx]`), else take one digit (failing if below `mn`). -/
def fieldP (mn mx : Nat) : List Char → Option (Nat × List Char)
  | [] => none
  | [c1] =>
    if isDig c1 then
      if mn ≤ dval c1 then some (dval c1, ([] : List Char)) else none
    else none
  | c1 :: c2 :: r =>
    if isDig c1 then
      if isDig c2 then
        if mn ≤ dval c1 * 10 + dval c2 ∧ dval c1 * 10 + dval c2 ≤ mx then
          some (dval c1 * 10 + dval c2, r)
        else none
      else
        if mn ≤ dval c1 then some (dval c1, c2 :: r) else none
    else none

/-- Zone-naive timestamp, the result of a successful `strptime`. -/
structure DateTime where
  year : Nat
  month : Nat
  day : Nat
  hour : Nat
  minute : Nat
  second : Nat
deriving DecidableEq, Repr

/-- The shared directive prefix `%Y-%m-%dT%H:%M:%S` of all three
formats in `ts_formats`, as compiled by `_strptime`:
`%m` is `1[0-2]|0[1-9]|[1-9]`, `%d` is `3[01]|[12]\d|0[1-9]|[1-9]`,
`%H` is `2[0-3]|[0-1]\d|\d`, `%M` is `[0-5]\d|\d`,
`%S` is `6[0-1]|[0-5]\d|\d`. -/
def parseCoreDT (cs : List Char) : Option (DateTime × List Char) :=
  (yearP cs).bind fun yr =>
  (litP '-' yr.2).bind fun r2 =>
  (fieldP 1 12 r2).bind fun mo =>
  (litP '-' mo.2).bind fun r4 =>
  (fieldP 1 31 r4).bind fun dy =>
  (litP 'T' dy.2).bind fun r6 =>
  (fieldP 0 23 r6).bind fun hr =>
  (litP ':' hr.2).bind fun r8 =>
  (fieldP 0 59 r8).bind fun mi =>
  (litP ':' mi.2).bind fun r10 =>
  (fieldP 0 61 r10).bind fun sc =>
  some (⟨yr.1, mo.1, dy.1, hr.1, mi.1, sc.1⟩, sc.2)

/-- Gregorian leap year, as Python's `calendar`/`datetime` use. -/
def isLeap (y : Nat) : Bool := y % 4 == 0 && (y % 100 != 0 || y % 400 == 0)

/-- Length of a month (0 for an out-of-range month index). -/
def daysInMonth (y m : Nat) : Nat :=
  match m with
  | 1 => 31 | 2 => if isLeap y then 29 else 28 | 3 => 31 | 4 => 30
  | 5 => 31 | 6 => 30 | 7 => 31 | 8 => 31 | 9 => 30 | 10 => 31
  | 11 => 30 | 12 => 31 | _ => 0

/-- The range checks of the `datetime` constructor, which
`datetime.strptime` runs after the regex match: `MINYEAR ≤ year`,
a calendar-valid day, and (unlike `time.strptime`) no leap seconds. -/
def dtValidB (t : DateTime) : Bool :=
  1 ≤ t.year && 1 ≤ t.month && t.month ≤ 12 && 1 ≤ t.day &&
  t.day ≤ daysInMonth t.year t.month && t.hour ≤ 23 &&
  t.minute ≤ 59 && t.second ≤ 59

/-- `datetime.strptime ts fmt` for a format of `ts_formats`, identified
by its literal suffix after the shared `%Y-%m-%dT%H:%M:%S` prefix.
The whole input must be consumed (CPython raises when
`len(data_string) != found.end()`). -/
def strptimeSuffix (suffix : String) (ts : String) : Option DateTime :=
  match parseCoreDT ts.toList with
  | some tr => if tr.2 == suffix.toList && dtValidB tr.1 then some tr.1 else none
  | none => none

/-- `ts_formats`: the three supported formats, by their suffix —
`"%Y-%m-%dT%H:%M:%S+00:00"`, `"%Y-%m-%dT%H:%M:%SZ"`,
`"%Y-%m-%dT%H:%M:%S"`. -/
def ts_formats : List String := ["+00:00", "Z", ""]

/-- The `for fmt in ts_formats: try ... break / else return None` loop
of `ts_parse`. -/
def ts_parse_aux (ts : String) : List String → Option DateTime
  | [] => none
  | f :: fs =>
    match strptimeSuffix f ts with
    | some dt => some dt
    | none => ts_parse_aux ts fs

/-- `ts_parse`: decode a time string in any allowed format; `None` when
every format fails (the bare `except:` swallows every error). -/
def ts_parse (ts : String) : Option DateTime := ts_parse_aux ts ts_formats

/-- Seconds since 0001-01-01T00:00:00 (proleptic Gregorian); models
Python's `datetime` ordering and `timedelta` subtraction on the
calendar-valid values `ts_parse` produces. -/
def leapsBefore (y : Nat) : Nat := y / 4 - y / 100 + y / 400

/-- Days in months `1..m-1` of year `y`. -/
def daysBeforeMonth (y : Nat) : Nat → Nat
  | 0 => 0
  | m + 1 => daysBeforeMonth y m + daysInMonth y m

/-- Day index of a date (0 for 0001-01-01). -/
def dayNumber (t : DateTime) : Nat :=
  (t.year - 1) * 365 + leapsBefore (t.year - 1) +
    daysBeforeMonth t.year t.month + (t.day - 1)

/-- Linearisation of a `DateTime` to seconds. -/
def toSec (t : DateTime) : Nat :=
  dayNumber t * 86400 + t.hour * 3600 + t.minute * 60 + t.second

/-- `abs(dt - dte)` on two datetimes, as a number of seconds. -/
def secDist (a b : Nat) : Nat := ((a : Int) - (b : Int)).natAbs

/-- JSON scalar values as Python objects (floats and nested containers
are not needed by any claim). -/
inductive Val where
  | vstr (s : String)
  | vint (n : Int)
  | vbool (b : Bool)
  | vnull
deriving DecidableEq, Repr

/-- Python `str()` on a `Val`. -/
def pyStr : Val → String
  | .vstr s => s
  | .vint n => toString n
  | .vbool true => "True"
  | .vbool false => "False"
  | .vnull => "None"

/-- A Python dict with `α`-valued entries: an association list whose
construction keeps keys unique. -/
abbrev Dict (α : Type) := List (String × α)

/-- `d.get(k)` / `d[k]`: first (unique) binding of `k`. -/
def dictGet {α : Type} (k : String) : Dict α → Option α
  | [] => none
  | (k', v) :: t => if k' = k then some v else dictGet k t

/-- `d[k] = v` on a Python dict: replaces the binding in place when the
key is present (insertion order is preserved), appends otherwise. -/
def dictInsert {α : Type} (k : String) (v : α) : Dict α → Dict α
  | [] => [(k, v)]
  | (k', v') :: t => if k' = k then (k, v) :: t else (k', v') :: dictInsert k v t

/-- A leaderboard event record: an open-ended JSON object. -/
abbrev Entry := Dict Val

/-- `ts_parse` applied to an arbitrary dict value, as the source does:
`strptime` raises `TypeError` on a non-string, which the bare
`except:` in `ts_parse` swallows like a format mismatch. -/
def ts_parse_val : Val → Option DateTime
  | .vstr s => ts_parse s
  | _ => none

/-- `unique_key_fields = "start_date athlete_name rank".split()`. -/
def unique_key_fields : List String := ["start_date", "athlete_name", "rank"]

/-- `make_composite_key`: `'+'.join(str(d.get(key, '')) for key in keys)`
(the `str()` of a missing field's `''` default is `''`). -/
def make_composite_key (d : Entry) (keys : List String) : String :=
  String.intercalate "+" (keys.map fun k =>
    match dictGet k d with
    | some v => pyStr v
    | none => "")

/-- The inner merge loop of `update_leaderboard.py`:
`for entry in d['entries']: data[make_composite_key(entry, unique_key_fields)] = entry`. -/
def mergeEntries (data : Dict Entry) (entries : List Entry) : Dict Entry :=
  entries.foldl (fun d e => dictInsert (make_composite_key e unique_key_fields) e d) data

/-- The outer loop over the batch files given on the command line. -/
def mergeBatches (data : Dict Entry) (batches : List (List Entry)) : Dict Entry :=
  batches.foldl mergeEntries data

/-- Python exceptions reaching the top of a request / the tool run. -/
inductive PyErr where
  | invalidUsage
  | typeError
  | keyError
  | ioError
  | parseError
deriving DecidableEq, Repr

deriving instance DecidableEq for Except

/-- State of the merge tool's filesystem: the contents of the
leaderboard file — absent, present but unparseable, or a parsed dict.
`os.replace` of the fully-written temp file is the single primitive
write, atomic at the OS level. -/
structure MergeFS where
  leaderboard : Option (Except Unit (Dict Entry))
deriving DecidableEq

/-- One complete run of `update_leaderboard.py`. Each command-line
batch file is given by its read/parse outcome: `.error ()` for a file
that is missing, unreadable or malformed (`open`/`json.load`/
`d['entries']` raise), `.ok entries` for a well-formed batch. The
existing leaderboard is read under `try/except` (errors fall back to
`{}`); batches are folded in order, aborting the run at the first bad
file; only a fully successful run reaches the temp-file write and the
atomic `os.replace`. Returns the final filesystem state and the
uncaught exception, if any. -/
def mergeToolLoop (acc : Dict Entry) : List (Except Unit (List Entry)) →
    Except PyErr (Dict Entry)
  | [] => .ok acc
  | .error _ :: _ => .error .parseError
  | .ok entries :: rest => mergeToolLoop (mergeEntries acc entries) rest

def runMergeTool (fs : MergeFS) (files : List (Except Unit (List Entry))) :
    MergeFS × Option PyErr :=
  let data : Dict Entry :=
    match fs.leaderboard with
    | some (.ok d) => d
    | _ => []
  match mergeToolLoop data files with
  | .error e => (fs, some e)
  | .ok merged => (⟨some (.ok merged)⟩, none)

/-- `read_json_dict`: `open` + `json.load` with the fallback `except`
commented out, so a missing file raises `IOError`/`OSError` and
malformed JSON raises a parse error; the input models the file as
absent, present-but-malformed, or parsed content `d`. -/
def read_json_dict {α : Type} (file : Option (Except Unit α)) : Except PyErr α :=
  match file with
  | none => .error .ioError
  | some (.error _) => .error .parseError
  | some (.ok d) => .ok d

/-- One element of the weather file's `features` array; `weather_find`
only ever touches its `properties` dict. -/
structure Feature where
  properties : Dict Val
deriving DecidableEq, Repr

/-- `event['properties']['timestamp']` followed by `ts_parse`, as in
the body of `weather_find`'s loop: a missing `timestamp` key raises
`KeyError`; any present value goes through `ts_parse` (which returns
`None` rather than raising, even on a non-string). -/
def featureTs (f : Feature) : Except PyErr (Option DateTime) :=
  match dictGet "timestamp" f.properties with
  | none => .error .keyError
  | some v => .ok (ts_parse_val v)

/-- The loop of `weather_find`, carrying `nearest` (the best distance
so far) and `weather` (the best `properties` so far). When `ts_parse`
returned `None`, Python evaluates `abs(dt - None)` — in the `if`
condition when `nearest` is set, in the assignment when it is not —
and the uncaught `TypeError` aborts the search either way. -/
def weather_find_loop (dt : DateTime) (nearest : Option Nat)
    (weather : Option (Dict Val)) :
    List Feature → Except PyErr (Option (Dict Val))
  | [] => .ok weather
  | f :: rest =>
    match featureTs f with
    | .error e => .error e
    | .ok none => .error .typeError
    | .ok (some dte) =>
      let d := secDist (toSec dt) (toSec dte)
      match nearest with
      | none => weather_find_loop dt (some d) (some f.properties) rest
      | some n =>
        if d < n then weather_find_loop dt (some d) (some f.properties) rest
        else weather_find_loop dt (some n) weather rest

/-- `weather_find`: the weather details closest to the given time;
`None` when the `features` sequence is empty. -/
def weather_find (dt : DateTime) (features : List Feature) :
    Except PyErr (Option (Dict Val)) :=
  weather_find_loop dt none none features

/-- Code-point lexicographic order on strings, Python's `<=` on `str`. -/
def lexLe : List Char → List Char → Bool
  | [], _ => true
  | _ :: _, [] => false
  | a :: as, b :: bs =>
    if a.toNat < b.toNat then true
    else if a.toNat = b.toNat then lexLe as bs
    else false

/-- Python string comparison. -/
def strLe (a b : String) : Bool := lexLe a.toList b.toList

/-- Insert into an already sorted list, before the first element
that is not strictly smaller. -/
def insertLe {α : Type} (le : α → α → Bool) (a : α) : List α → List α
  | [] => [a]
  | b :: bs => if le a b then a :: b :: bs else b :: insertLe le a bs

/-- Stable sort (insertion sort), the behaviour of Python's `sorted`:
elements comparing equal keep their original relative order. -/
def sortBy {α : Type} (le : α → α → Bool) : List α → List α
  | [] => []
  | a :: as => insertLe le a (sortBy le as)

/-- The filter loop of `leaders_timerange`, iterating the sorted key
list: `events[event]` on a missing key raises `KeyError` (impossible
for keys coming from the dict itself); a `start_date` that is missing
raises `KeyError`, and one that `ts_parse` cannot decode leaves
`dt = None`, so `dt >= dt1` raises `TypeError`. -/
def timerange_loop (dt1 dt2 : DateTime) (events : Dict Entry) :
    List String → Except PyErr (List Entry)
  | [] => .ok []
  | k :: ks =>
    match dictGet k events with
    | none => .error .keyError
    | some e =>
      match dictGet "start_date" e with
      | none => .error .keyError
      | some v =>
        match ts_parse_val v with
        | none => .error .typeError
        | some dt =>
          match timerange_loop dt1 dt2 events ks with
          | .error err => .error err
          | .ok rest =>
            if toSec dt1 ≤ toSec dt ∧ toSec dt ≤ toSec dt2 then
              .ok (e :: rest)
            else .ok rest

/-- The `/leaders/timerange/<ts1>/<ts2>` handler, applied to the
already-loaded leaderboard dict: parse both bounds, reject the request
with `InvalidUsage` when either fails or `dt2 < dt1`, then walk
`sorted(events)` (the keys in Python string order) collecting the
records whose parsed `start_date` lies in `[dt1, dt2]`. -/
def leaders_timerange (ts1 ts2 : String) (events : Dict Entry) :
    Except PyErr (List Entry) :=
  match ts_parse ts1, ts_parse ts2 with
  | some dt1, some dt2 =>
    if toSec dt2 < toSec dt1 then .error .invalidUsage
    else timerange_loop dt1 dt2 events (sortBy strLe (events.map Prod.fst))
  | _, _ => .error .invalidUsage

/-! ### Generic lemmas about the dict and sort models -/

theorem dictGet_dictInsert {α : Type} (k k' : String) (v : α) (d : Dict α) :
    dictGet k (dictInsert k' v d) = if k' = k then some v else dictGet k d := by
  induction d with
  | nil => simp [dictInsert, dictGet]
  | cons hd t ih =>
    obtain ⟨k2, v2⟩ := hd
    by_cases h : k2 = k'
    · subst h
      by_cases h2 : k2 = k <;> simp [dictInsert, dictGet, h2]
    · by_cases h2 : k2 = k
      · subst h2
        have h' : k' ≠ k2 := fun hh => h hh.symm
        simp [dictInsert, dictGet, h, h']
      · simp [dictInsert, dictGet, h, h2, ih]

theorem dictGet_of_mem_nodup {α : Type} {k : String} {v : α} {d : Dict α}
    (hm : (k, v) ∈ d) (hnd : (d.map Prod.fst).Nodup) : dictGet k d = some v := by
  induction d with
  | nil => cases hm
  | cons hd t ih =>
    obtain ⟨k2, v2⟩ := hd
    simp only [List.map_cons, List.nodup_cons] at hnd
    rcases List.mem_cons.mp hm with heq | ht
    · cases heq
      simp [dictGet]
    · have hk : k2 ≠ k := by
        intro hkk
        subst hkk
        exact hnd.1 (List.mem_map.mpr ⟨(k2, v), ht, rfl⟩)
      simp [dictGet, hk, ih ht hnd.2]

theorem mem_insertLe {α : Type} (le : α → α → Bool) (a x : α) (l : List α) :
    x ∈ insertLe le a l ↔ x = a ∨ x ∈ l := by
  induction l with
  | nil => simp [insertLe]
  | cons b t ih =>
    by_cases h : le a b = true
    · simp only [insertLe, if_pos h, List.mem_cons]
    · simp only [insertLe, if_neg h, List.mem_cons, ih]
      tauto

theorem mem_sortBy {α : Type} (le : α → α → Bool) (x : α) (l : List α) :
    x ∈ sortBy le l ↔ x ∈ l := by
  induction l with
  | nil => simp [sortBy]
  | cons a t ih => simp [sortBy, mem_insertLe, ih]

theorem map_insertLe {α β : Type} (le : α → α → Bool) (le' : β → β → Bool)
    (f : α → β) (hc : ∀ a b, le' (f a) (f b) = le a b) (a : α) (l : List α) :
    (insertLe le a l).map f = insertLe le' (f a) (l.map f) := by
  induction l with
  | nil => simp [insertLe]
  | cons b t ih =>
    by_cases h : le a b = true
    · simp [insertLe, h, hc]
    · simp only [insertLe, h, if_neg]
      simp [insertLe, hc, h, ih]

theorem map_sortBy {α β : Type} (le : α → α → Bool) (le' : β → β → Bool)
    (f : α → β) (hc : ∀ a b, le' (f a) (f b) = le a b) (l : List α) :
    (sortBy le l).map f = sortBy le' (l.map f) := by
  induction l with
  | nil => simp [sortBy]
  | cons a t ih => simp [sortBy, map_insertLe le le' f hc, ih]

/-! ### Merge-tool lemmas -/

/-- The composite key the merge loop stores an entry under. -/
def entryKey (e : Entry) : String := make_composite_key e unique_key_fields

/-- Last entry of a batch list whose composite key is `k`. -/
def lastWithKey (k : String) : List Entry → Option Entry
  | [] => none
  | e :: rest =>
    match lastWithKey k rest with
    | some r => some r
    | none => if entryKey e = k then some e else none

theorem mergeEntries_get (E : Dict Entry) (l : List Entry) (k : String) :
    dictGet k (mergeEntries E l) =
      match lastWithKey k l with
      | some e => some e
      | none => dictGet k E := by
  induction l generalizing E with
  | nil => simp [mergeEntries, lastWithKey]
  | cons e rest ih =>
    show dictGet k (mergeEntries (dictInsert (entryKey e) e E) rest) = _
    rw [ih]
    cases h : lastWithKey k rest with
    | some r => simp [lastWithKey, h]
    | none =>
      rw [dictGet_dictInsert]
      by_cases hk : entryKey e = k <;> simp [lastWithKey, h, hk]

theorem mergeBatches_eq_join (E : Dict Entry) (bs : List (List Entry)) :
    mergeBatches E bs = mergeEntries E bs.flatten := by
  induction bs generalizing E with
  | nil => simp [mergeBatches, mergeEntries]
  | cons b rest ih =>
    show mergeBatches (mergeEntries E b) rest = _
    rw [ih]
    simp [mergeEntries, List.foldl_append]

theorem lastWithKey_key {k : String} {l : List Entry} {e : Entry}
    (h : lastWithKey k l = some e) : entryKey e = k := by
  induction l with
  | nil => simp [lastWithKey] at h
  | cons x rest ih =>
    simp only [lastWithKey] at h
    cases hr : lastWithKey k rest with
    | some r =>
      rw [hr] at h
      cases h
      exact ih hr
    | none =>
      rw [hr] at h
      by_cases hk : entryKey x = k
      · rw [if_pos hk] at h
        cases h
        exact hk
      · rw [if_neg hk] at h
        cases h

theorem mergeToolLoop_error (files : List (Except Unit (List Entry)))
    (h : Except.error () ∈ files) (acc : Dict Entry) :
    mergeToolLoop acc files = .error .parseError := by
  induction files generalizing acc with
  | nil => cases h
  | cons f rest ih =>
    cases f with
    | error u => rfl
    | ok entries =>
      rcases List.mem_cons.mp h with heq | ht
      · cases heq
      · exact ih ht (mergeEntries acc entries)

/-! ### Claim theorems -/

/-- C4. Merge precedence (last-write-wins): after folding any sequence
of batches into an existing leaderboard mapping, the value stored under
any key `k` is the last entry (across all batches, in application
order) whose composite key is `k`, and the pre-existing value only
survives when no batch entry has that key — so whenever two entries
share a composite key, the later-applied one is retained. -/
theorem merge_last_write_wins (E : Dict Entry) (bs : List (List Entry)) (k : String) :
    dictGet k (mergeBatches E bs) =
      match lastWithKey k bs.flatten with
      | some e => some e
      | none => dictGet k E := by
  rw [mergeBatches_eq_join]
  exact mergeEntries_get E bs.flatten k

/-- C5. Merge idempotence: merging the same batch twice into an
existing mapping yields the same mapping (the same value under every
key) as merging it once. -/
theorem merge_idempotent (E : Dict Entry) (B : List Entry) (k : String) :
    dictGet k (mergeEntries (mergeEntries E B) B) =
      dictGet k (mergeEntries E B) := by
  rw [mergeEntries_get, mergeEntries_get]
  cases h : lastWithKey k B <;> simp [h]

/-- C8. Composite-key invariant: every binding produced by the merge
loop either was already in the existing mapping, or its key is the
`'+'`-joined concatenation of the string forms of the entry's
`start_date`, `athlete_name` and `rank` fields (a missing field
contributing the empty string) — every record the merge inserts is
stored under its own composite key. -/
theorem merge_composite_key_invariant (E : Dict Entry) (B : List Entry)
    (k : String) (e : Entry) (h : dictGet k (mergeEntries E B) = some e) :
    dictGet k E = some e ∨
      k = (match dictGet "start_date" e with | some v => pyStr v | none => "") ++ "+" ++
          (match dictGet "athlete_name" e with | some v => pyStr v | none => "") ++ "+" ++
          (match dictGet "rank" e with | some v => pyStr v | none => "") := by
  rw [mergeEntries_get] at h
  cases hl : lastWithKey k B with
  | none =>
    rw [hl] at h
    exact Or.inl h
  | some r =>
    rw [hl] at h
    cases h
    refine Or.inr ?_
    have hk := lastWithKey_key hl
    rw [← hk]
    simp [entryKey, make_composite_key, unique_key_fields, String.intercalate,
      String.intercalate.go]

/-- Witness for C8 at a concrete merge. -/
theorem merge_composite_key_invariant_witness :
    dictGet "2024-01-01T00:00:00Z+alice+1"
        (mergeEntries []
          [[("start_date", Val.vstr "2024-01-01T00:00:00Z"),
            ("athlete_name", Val.vstr "alice"),
            ("rank", Val.vint 1)]]) =
      some [("start_date", Val.vstr "2024-01-01T00:00:00Z"),
            ("athlete_name", Val.vstr "alice"),
            ("rank", Val.vint 1)] ∧
    ("2024-01-01T00:00:00Z+alice+1" : String) =
      "2024-01-01T00:00:00Z" ++ "+" ++ "alice" ++ "+" ++ "1" := by
  refine ⟨by decide, ?_⟩
  have h := merge_composite_key_invariant []
    [[("start_date", Val.vstr "2024-01-01T00:00:00Z"),
      ("athlete_name", Val.vstr "alice"),
      ("rank", Val.vint 1)]]
    "2024-01-01T00:00:00Z+alice+1"
    [("start_date", Val.vstr "2024-01-01T00:00:00Z"),
     ("athlete_name", Val.vstr "alice"),
     ("rank", Val.vint 1)]
    (by decide)
  rcases h with h | h
  · cases h
  · exact h.trans (by decide)

/-- C6. Merge atomicity on error: when any input batch file is
malformed, the whole run fails with `ParseError` and the persisted
leaderboard file is left exactly as it was — the temp-file write and
atomic replace are never reached, so no partial merge is committed and
a reader can never observe a partially written dataset. -/
theorem merge_atomic_on_parse_error (fs : MergeFS)
    (files : List (Except Unit (List Entry))) (h : Except.error () ∈ files) :
    (runMergeTool fs files).1 = fs ∧
      (runMergeTool fs files).2 = some PyErr.parseError := by
  constructor <;> simp [runMergeTool, mergeToolLoop_error files h]

/-- Witness for C6: a run over a good batch and a malformed file. -/
theorem merge_atomic_on_parse_error_witness :
    (runMergeTool ⟨some (.ok [("k", [("rank", Val.vint 2)])])⟩
        [.ok [[("rank", Val.vint 1)]], .error ()]).1 =
      ⟨some (.ok [("k", [("rank", Val.vint 2)])])⟩ ∧
    (runMergeTool ⟨some (.ok [("k", [("rank", Val.vint 2)])])⟩
        [.ok [[("rank", Val.vint 1)]], .error ()]).2 =
      some PyErr.parseError :=
  merge_atomic_on_parse_error _ _ (by decide)

/-- C7. `read_json_dict` (the loader behind `loadLeaderboard` /
`loadWeather`) fails with `IOError` exactly when the file is missing
and with `ParseError` exactly when it is not valid JSON, and returns a
value only when the file actually parsed to that value — it never
silently substitutes an empty mapping, so loading errors always
propagate to the caller. -/
theorem read_json_dict_error_propagation {α : Type}
    (file : Option (Except Unit α)) :
    (read_json_dict file = Except.error PyErr.ioError ↔ file = none) ∧
    (read_json_dict file = Except.error PyErr.parseError ↔
      file = some (Except.error ())) ∧
    (∀ d : α, read_json_dict file = Except.ok d ↔ file = some (Except.ok d)) := by
  rcases file with _ | f
  · simp [read_json_dict]
  · rcases f with u | d
    · cases u
      simp [read_json_dict]
    · simp [read_json_dict]

/-- C9. Format priority of the timestamp codec: `ts_parse` tries the
three accepted layouts in fixed order — `%Y-%m-%dT%H:%M:%S+00:00`,
then `%Y-%m-%dT%H:%M:%SZ`, then `%Y-%m-%dT%H:%M:%S` — and returns the
first successful parse; it returns `none` exactly when all three
fail, and (being `Option`-valued) never raises. -/
theorem ts_parse_format_priority (s : String) :
    (ts_parse s =
      ((strptimeSuffix "+00:00" s).orElse fun _ =>
        ((strptimeSuffix "Z" s).orElse fun _ =>
          strptimeSuffix "" s))) ∧
    (ts_parse s = none ↔
      strptimeSuffix "+00:00" s = none ∧ strptimeSuffix "Z" s = none ∧
        strptimeSuffix "" s = none) := by
  unfold ts_parse ts_formats
  cases h1 : strptimeSuffix "+00:00" s <;>
    cases h2 : strptimeSuffix "Z" s <;>
    cases h3 : strptimeSuffix "" s <;>
    simp [ts_parse_aux, Option.orElse, h1, h2, h3]

/-! ### Nearest-weather search -/

/-- Distance used for ranking an observation (only meaningful when its
timestamp parses; 0 as a placeholder otherwise). -/
def featureDist (dt : DateTime) (f : Feature) : Nat :=
  match featureTs f with
  | .ok (some t) => secDist (toSec dt) (toSec t)
  | _ => 0

/-- Spec-side `findNearest`: the first observation (in input order) of
minimal absolute time distance to the target. -/
def nearestSpec (dt : DateTime) : List Feature → Option Feature
  | [] => none
  | f :: rest =>
    match nearestSpec dt rest with
    | none => some f
    | some g => if featureDist dt f ≤ featureDist dt g then some f else some g

theorem nearestSpec_cons_some (dt : DateTime) (f : Feature) (rest : List Feature) :
    ∃ g, nearestSpec dt (f :: rest) = some g ∧
      featureDist dt g ≤ featureDist dt f := by
  cases h : nearestSpec dt rest with
  | none => exact ⟨f, by simp [nearestSpec, h], le_refl _⟩
  | some g =>
    by_cases hle : featureDist dt f ≤ featureDist dt g
    · exact ⟨f, by simp [nearestSpec, h, hle], le_refl _⟩
    · exact ⟨g, by simp [nearestSpec, h, hle], by omega⟩

theorem nearestSpec_cons_cons_lt {dt : DateTime} {w f : Feature}
    (rest : List Feature) (h : featureDist dt f < featureDist dt w) :
    nearestSpec dt (w :: f :: rest) = nearestSpec dt (f :: rest) := by
  obtain ⟨g, hg, hgle⟩ := nearestSpec_cons_some dt f rest
  have hnw : ¬ featureDist dt w ≤ featureDist dt g := by omega
  have hstep : nearestSpec dt (w :: f :: rest) =
      (match nearestSpec dt (f :: rest) with
       | none => some w
       | some g => if featureDist dt w ≤ featureDist dt g then some w
                   else some g) := rfl
  rw [hstep, hg]
  show (if featureDist dt w ≤ featureDist dt g then some w else some g) = some g
  rw [if_neg hnw]

theorem nearestSpec_cons_cons_ge {dt : DateTime} {w f : Feature}
    (rest : List Feature) (h : featureDist dt w ≤ featureDist dt f) :
    nearestSpec dt (w :: f :: rest) = nearestSpec dt (w :: rest) := by
  cases h1 : nearestSpec dt rest with
  | none => simp [nearestSpec, h1, h]
  | some g =>
    by_cases hfg : featureDist dt f ≤ featureDist dt g
    · have hwg : featureDist dt w ≤ featureDist dt g := le_trans h hfg
      simp [nearestSpec, h1, hfg, h, hwg]
    · simp [nearestSpec, h1, hfg]

theorem weather_find_loop_acc (dt : DateTime) (l : List Feature)
    (hp : ∀ f ∈ l, ∃ t, featureTs f = Except.ok (some t)) :
    ∀ w : Feature,
      weather_find_loop dt (some (featureDist dt w)) (some w.properties) l =
        .ok ((nearestSpec dt (w :: l)).map Feature.properties) := by
  induction l with
  | nil => intro w; simp [weather_find_loop, nearestSpec]
  | cons f rest ih =>
    intro w
    obtain ⟨t, hft⟩ := hp f (List.mem_cons_self f rest)
    have hrest : ∀ g ∈ rest, ∃ t, featureTs g = Except.ok (some t) :=
      fun g hg => hp g (List.mem_cons_of_mem f hg)
    have hd : featureDist dt f = secDist (toSec dt) (toSec t) := by
      simp [featureDist, hft]
    by_cases hlt : secDist (toSec dt) (toSec t) < featureDist dt w
    · have : weather_find_loop dt (some (featureDist dt w)) (some w.properties)
          (f :: rest) =
          weather_find_loop dt (some (featureDist dt f)) (some f.properties) rest := by
        simp [weather_find_loop, hft, hlt, hd]
      rw [this, ih hrest f, nearestSpec_cons_cons_lt rest (by omega)]
    · have : weather_find_loop dt (some (featureDist dt w)) (some w.properties)
          (f :: rest) =
          weather_find_loop dt (some (featureDist dt w)) (some w.properties) rest := by
        simp [weather_find_loop, hft, hlt]
      rw [this, ih hrest w, nearestSpec_cons_cons_ge rest (by omega)]

/-- C2. For a non-empty observation list in which every observation's
timestamp parses, `weather_find` succeeds and returns the `properties`
of the observation whose parsed timestamp is at minimal absolute
distance from the target; among equidistant observations, the first
one in input order wins (the update comparison being strict `<`). -/
theorem weather_find_returns_first_nearest (dt : DateTime)
    (events : List Feature) (hne : events ≠ [])
    (hp : ∀ f ∈ events, ∃ t, featureTs f = Except.ok (some t)) :
    weather_find dt events =
      .ok ((nearestSpec dt events).map Feature.properties) := by
  cases events with
  | nil => exact absurd rfl hne
  | cons f rest =>
    obtain ⟨t, hft⟩ := hp f (List.mem_cons_self f rest)
    have hrest : ∀ g ∈ rest, ∃ t, featureTs g = Except.ok (some t) :=
      fun g hg => hp g (List.mem_cons_of_mem f hg)
    have hd : featureDist dt f = secDist (toSec dt) (toSec t) := by
      simp [featureDist, hft]
    have : weather_find dt (f :: rest) =
        weather_find_loop dt (some (featureDist dt f)) (some f.properties) rest := by
      simp [weather_find, weather_find_loop, hft, hd]
    rw [this, weather_find_loop_acc dt rest hrest f]

/-- Witness for C2: two observations equidistant (3600 s) from the
target; the first one in input order is returned. -/
theorem weather_find_returns_first_nearest_witness :
    weather_find ⟨2024, 1, 1, 12, 0, 0⟩
        [⟨[("timestamp", Val.vstr "2024-01-01T11:00:00Z"), ("temperature", Val.vint 5)]⟩,
         ⟨[("timestamp", Val.vstr "2024-01-01T13:00:00Z"), ("temperature", Val.vint 9)]⟩] =
      .ok (some [("timestamp", Val.vstr "2024-01-01T11:00:00Z"),
                 ("temperature", Val.vint 5)]) := by
  have h := weather_find_returns_first_nearest ⟨2024, 1, 1, 12, 0, 0⟩
    [⟨[("timestamp", Val.vstr "2024-01-01T11:00:00Z"), ("temperature", Val.vint 5)]⟩,
     ⟨[("timestamp", Val.vstr "2024-01-01T13:00:00Z"), ("temperature", Val.vint 9)]⟩]
    (by decide)
    (by
      intro f hf
      simp only [List.mem_cons, List.not_mem_nil, or_false] at hf
      rcases hf with rfl | rfl
      · exact ⟨⟨2024, 1, 1, 11, 0, 0⟩, by decide⟩
      · exact ⟨⟨2024, 1, 1, 13, 0, 0⟩, by decide⟩)
  rw [h]
  decide

/-- C3 counterexample: a single observation whose `timestamp` fails to
parse is not skipped — `abs(dt - None)` raises an uncaught `TypeError`,
so the search fails instead of returning the absent value. -/
theorem weather_find_unparseable_counterexample :
    weather_find ⟨2024, 1, 1, 0, 0, 0⟩
        [⟨[("timestamp", Val.vstr "not-a-time")]⟩] =
      .error PyErr.typeError ∧
    (Except.error PyErr.typeError : Except PyErr (Option (Dict Val))) ≠
      .ok none := by
  exact ⟨by decide, by decide⟩

theorem weather_find_loop_fatal (dt : DateTime) (l : List Feature)
    (h : ∃ f ∈ l, ∀ t, featureTs f ≠ Except.ok (some t)) :
    ∀ ne w, ∃ err, weather_find_loop dt ne w l = .error err := by
  induction l with
  | nil =>
    obtain ⟨f, hf, _⟩ := h
    cases hf
  | cons f rest ih =>
    intro ne w
    cases hft : featureTs f with
    | error e => exact ⟨e, by simp [weather_find_loop, hft]⟩
    | ok o =>
      cases o with
      | none => exact ⟨.typeError, by simp [weather_find_loop, hft]⟩
      | some t =>
        obtain ⟨g, hg, hbad⟩ := h
        rcases List.mem_cons.mp hg with rfl | hgt
        · exact absurd hft (hbad t)
        · have hrest : ∃ f ∈ rest, ∀ t, featureTs f ≠ Except.ok (some t) :=
            ⟨g, hgt, hbad⟩
          cases ne with
          | none =>
            obtain ⟨err, herr⟩ := ih hrest
              (some (secDist (toSec dt) (toSec t))) (some f.properties)
            exact ⟨err, by simp [weather_find_loop, hft, herr]⟩
          | some n =>
            by_cases hlt : secDist (toSec dt) (toSec t) < n
            · obtain ⟨err, herr⟩ := ih hrest
                (some (secDist (toSec dt) (toSec t))) (some f.properties)
              exact ⟨err, by simp [weather_find_loop, hft, hlt, herr]⟩
            · obtain ⟨err, herr⟩ := ih hrest (some n) w
              exact ⟨err, by simp [weather_find_loop, hft, hlt, herr]⟩

/-- C3 amended: `weather_find` returns the absent value (not an error)
on an empty observation sequence; but an observation whose timestamp
fails to parse is *not* skipped — whenever any observation's timestamp
fails to parse (or is missing), the search aborts with an uncaught
exception (`TypeError` from `abs(dt - None)`, or `KeyError`). -/
theorem weather_find_empty_absent_bad_ts_fatal (dt : DateTime)
    (events : List Feature) :
    weather_find dt ([] : List Feature) = Except.ok none ∧
    ((∃ f ∈ events, ∀ t, featureTs f ≠ Except.ok (some t)) →
      ∃ err, weather_find dt events = Except.error err) := by
  constructor
  · rfl
  · intro h
    exact weather_find_loop_fatal dt events h none none

/-- Witness for the amended C3: a `null` timestamp makes the search
fail (and the empty sequence yields the absent value). -/
theorem weather_find_empty_absent_bad_ts_fatal_witness :
    weather_find ⟨2024, 1, 1, 0, 0, 0⟩ ([] : List Feature) = Except.ok none ∧
    ∃ err, weather_find ⟨2024, 1, 1, 0, 0, 0⟩
        [⟨[("timestamp", Val.vnull)]⟩] = Except.error err := by
  have h := weather_find_empty_absent_bad_ts_fatal ⟨2024, 1, 1, 0, 0, 0⟩
    [⟨[("timestamp", Val.vnull)]⟩]
  refine ⟨h.1, h.2 ⟨⟨[("timestamp", Val.vnull)]⟩, List.mem_cons_self _ _, ?_⟩⟩
  intro t ht
  rw [show featureTs ⟨[("timestamp", Val.vnull)]⟩ = Except.ok none from by decide] at ht
  simp at ht

/-! ### Appending a non-digit suffix does not disturb the core parse -/

theorem litP_append {c : Char} {l r : List Char} (ext : List Char)
    (h : litP c l = some r) : litP c (l ++ ext) = some (r ++ ext) := by
  cases l with
  | nil => simp [litP] at h
  | cons hd t =>
    by_cases hc : hd.toLower = c.toLower
    · simp [litP, hc] at h ⊢
      exact h
    · simp [litP, hc] at h

theorem yearP_append {l : List Char} {p : Nat × List Char} (ext : List Char)
    (h : yearP l = some p) : yearP (l ++ ext) = some (p.1, p.2 ++ ext) := by
  rcases l with _ | ⟨c1, l⟩
  · simp [yearP] at h
  rcases l with _ | ⟨c2, l⟩
  · simp [yearP] at h
  rcases l with _ | ⟨c3, l⟩
  · simp [yearP] at h
  rcases l with _ | ⟨c4, l⟩
  · simp [yearP] at h
  simp only [yearP, List.cons_append] at h ⊢
  by_cases hd : (isDig c1 && isDig c2 && isDig c3 && isDig c4) = true
  · rw [if_pos hd] at h ⊢
    cases h
    rfl
  · rw [if_neg hd] at h
    cases h

theorem fieldP_append {mn mx : Nat} {l : List Char} {p : Nat × List Char}
    {ext : List Char} (hext : ∀ c, ext.head? = some c → isDig c = false)
    (h : fieldP mn mx l = some p) :
    fieldP mn mx (l ++ ext) = some (p.1, p.2 ++ ext) := by
  rcases l with _ | ⟨c1, l2⟩
  · simp [fieldP] at h
  rcases l2 with _ | ⟨c2, r⟩
  · simp only [fieldP] at h
    by_cases h1 : isDig c1 = true
    · rw [if_pos h1] at h
      by_cases h2 : mn ≤ dval c1
      · rw [if_pos h2] at h
        cases h
        cases ext with
        | nil => simp [fieldP, h1, h2]
        | cons e ext' =>
          have he : isDig e = false := hext e rfl
          simp [fieldP, h1, h2, he]
      · rw [if_neg h2] at h
        cases h
    · rw [if_neg h1] at h
      cases h
  · simp only [fieldP, List.cons_append] at h ⊢
    by_cases h1 : isDig c1 = true
    case neg =>
      rw [if_neg h1] at h
      cases h
    rw [if_pos h1] at h ⊢
    by_cases h2 : isDig c2 = true
    · rw [if_pos h2] at h ⊢
      by_cases h3 : mn ≤ dval c1 * 10 + dval c2 ∧ dval c1 * 10 + dval c2 ≤ mx
      · rw [if_pos h3] at h ⊢
        cases h
        rfl
      · rw [if_neg h3] at h
        cases h
    · rw [if_neg h2] at h ⊢
      by_cases h4 : mn ≤ dval c1
      · rw [if_pos h4] at h ⊢
        cases h
        rfl
      · rw [if_neg h4] at h
        cases h

theorem parseCoreDT_append {l : List Char} {q : DateTime × List Char}
    {ext : List Char} (hext : ∀ c, ext.head? = some c → isDig c = false)
    (h : parseCoreDT l = some q) :
    parseCoreDT (l ++ ext) = some (q.1, q.2 ++ ext) := by
  unfold parseCoreDT at h
  obtain ⟨yr, hy, h⟩ := Option.bind_eq_some.mp h
  obtain ⟨r2, hl2, h⟩ := Option.bind_eq_some.mp h
  obtain ⟨mo, hmo, h⟩ := Option.bind_eq_some.mp h
  obtain ⟨r4, hl4, h⟩ := Option.bind_eq_some.mp h
  obtain ⟨dy, hdy, h⟩ := Option.bind_eq_some.mp h
  obtain ⟨r6, hl6, h⟩ := Option.bind_eq_some.mp h
  obtain ⟨hr, hhr, h⟩ := Option.bind_eq_some.mp h
  obtain ⟨r8, hl8, h⟩ := Option.bind_eq_some.mp h
  obtain ⟨mi, hmi, h⟩ := Option.bind_eq_some.mp h
  obtain ⟨r10, hl10, h⟩ := Option.bind_eq_some.mp h
  obtain ⟨sc, hsc, h⟩ := Option.bind_eq_some.mp h
  cases h
  unfold parseCoreDT
  simp only [yearP_append ext hy, Option.some_bind,
    litP_append ext hl2, fieldP_append hext hmo,
    litP_append ext hl4, fieldP_append hext hdy,
    litP_append ext hl6, fieldP_append hext hhr,
    litP_append ext hl8, fieldP_append hext hmi,
    litP_append ext hl10, fieldP_append hext hsc]

theorem strToList_append (s u : String) :
    (s ++ u).toList = s.toList ++ u.toList :=
  String.data_append s u

theorem strptimeSuffix_of_core {suffix s : String} {t : DateTime}
    (h : parseCoreDT s.toList = some (t, suffix.toList))
    (hv : dtValidB t = true) : strptimeSuffix suffix s = some t := by
  unfold strptimeSuffix
  rw [h]
  show (if ((suffix.toList == suffix.toList) && dtValidB t) = true
      then some t else none) = some t
  simp [hv]

theorem strptimeSuffix_of_core_ne {suffix s : String} {t : DateTime}
    {r : List Char} (h : parseCoreDT s.toList = some (t, r))
    (hne : (r == suffix.toList) = false) : strptimeSuffix suffix s = none := by
  unfold strptimeSuffix
  rw [h]
  show (if ((r == suffix.toList) && dtValidB t) = true
      then some t else none) = none
  rw [hne]
  simp

/-- C10. Zone-suffix equivalence: whenever a plain (no-suffix)
date-time string parses, the variants of the same date-time carrying
the accepted `+00:00` and `Z` suffixes parse, through `ts_parse`, to
the same zone-naive timestamp value — so time-range filtering and
nearest-observation distances treat the three textual variants as the
same instant. -/
theorem ts_parse_suffix_variants_agree (s : String) (t : DateTime)
    (h : strptimeSuffix "" s = some t) :
    ts_parse s = some t ∧ ts_parse (s ++ "Z") = some t ∧
      ts_parse (s ++ "+00:00") = some t := by
  have hcore : parseCoreDT s.toList = some (t, []) ∧ dtValidB t = true := by
    unfold strptimeSuffix at h
    cases hc : parseCoreDT s.toList with
    | none =>
      rw [hc] at h
      cases h
    | some tr =>
      rw [hc] at h
      have h' : (if ((tr.2 == ("" : String).toList) && dtValidB tr.1) = true
          then some tr.1 else none) = some t := h
      by_cases hcond : ((tr.2 == ("" : String).toList) && dtValidB tr.1) = true
      · rw [if_pos hcond] at h'
        have ht : tr.1 = t := Option.some.inj h'
        have h2 : tr.2 = [] := by
          have := (Bool.and_eq_true _ _).mp hcond
          simpa using this.1
        have hv : dtValidB tr.1 = true := ((Bool.and_eq_true _ _).mp hcond).2
        have htr : tr = (t, []) := Prod.ext ht h2
        rw [ht] at hv
        exact ⟨by rw [htr], hv⟩
      · rw [if_neg hcond] at h'
        cases h'
  obtain ⟨hc, hv⟩ := hcore
  have hextZ : ∀ c, ("Z" : String).toList.head? = some c → isDig c = false := by
    decide
  have hextP : ∀ c, ("+00:00" : String).toList.head? = some c → isDig c = false := by
    decide
  have hcZ : parseCoreDT ((s ++ "Z").toList) = some (t, ("Z" : String).toList) := by
    rw [strToList_append]
    exact parseCoreDT_append hextZ hc
  have hcP : parseCoreDT ((s ++ "+00:00").toList) =
      some (t, ("+00:00" : String).toList) := by
    rw [strToList_append]
    exact parseCoreDT_append hextP hc
  refine ⟨?_, ?_, ?_⟩
  · have f1 : strptimeSuffix "+00:00" s = none :=
      strptimeSuffix_of_core_ne hc (by decide)
    have f2 : strptimeSuffix "Z" s = none :=
      strptimeSuffix_of_core_ne hc (by decide)
    simp [ts_parse, ts_formats, ts_parse_aux, f1, f2, h]
  · have f1 : strptimeSuffix "+00:00" (s ++ "Z") = none :=
      strptimeSuffix_of_core_ne hcZ (by decide)
    have f2 : strptimeSuffix "Z" (s ++ "Z") = some t :=
      strptimeSuffix_of_core hcZ hv
    simp [ts_parse, ts_formats, ts_parse_aux, f1, f2]
  · have f1 : strptimeSuffix "+00:00" (s ++ "+00:00") = some t :=
      strptimeSuffix_of_core hcP hv
    simp [ts_parse, ts_formats, ts_parse_aux, f1]

/-- Witness for C10 at a concrete date-time. -/
theorem ts_parse_suffix_variants_agree_witness :
    ts_parse "2024-06-15T10:30:00" = some ⟨2024, 6, 15, 10, 30, 0⟩ ∧
    ts_parse ("2024-06-15T10:30:00" ++ "Z") = some ⟨2024, 6, 15, 10, 30, 0⟩ ∧
    ts_parse ("2024-06-15T10:30:00" ++ "+00:00") =
      some ⟨2024, 6, 15, 10, 30, 0⟩ :=
  ts_parse_suffix_variants_agree "2024-06-15T10:30:00" ⟨2024, 6, 15, 10, 30, 0⟩
    (by decide)

/-! ### The /leaders/timerange endpoint -/

/-- Whether a record's parsed `start_date` lies in `[dt1, dt2]`
(false when the field is missing or unparseable). -/
def entryInRange (dt1 dt2 : DateTime) (e : Entry) : Bool :=
  match dictGet "start_date" e with
  | some v =>
    match ts_parse_val v with
    | some dt => decide (toSec dt1 ≤ toSec dt) && decide (toSec dt ≤ toSec dt2)
    | none => false
  | none => false

/-- Spec-side `filterByTimeRange`: exactly the records of the dataset
whose parsed `start_date` satisfies `lo ≤ start_date ≤ hi`, listed in
ascending (code-point lexicographic) order of the key they are stored
under. -/
def timerangeSpec (dt1 dt2 : DateTime) (events : Dict Entry) : List Entry :=
  ((sortBy (fun a b => strLe a.1 b.1) events).filter
    (fun p => entryInRange dt1 dt2 p.2)).map Prod.snd

theorem timerange_loop_spec (dt1 dt2 : DateTime) (events : Dict Entry)
    (hnd : (events.map Prod.fst).Nodup) (S : List (String × Entry))
    (hS : ∀ p ∈ S, p ∈ events)
    (hp : ∀ p ∈ S, ∃ v t, dictGet "start_date" p.2 = some v ∧
      ts_parse_val v = some t) :
    timerange_loop dt1 dt2 events (S.map Prod.fst) =
      .ok ((S.filter (fun p => entryInRange dt1 dt2 p.2)).map Prod.snd) := by
  induction S with
  | nil => simp [timerange_loop]
  | cons p S' ih =>
    obtain ⟨k, e⟩ := p
    have hget : dictGet k events = some e :=
      dictGet_of_mem_nodup (hS (k, e) (List.mem_cons_self _ _)) hnd
    obtain ⟨v, t, hv, ht⟩ := hp (k, e) (List.mem_cons_self _ _)
    have hIH := ih (fun q hq => hS q (List.mem_cons_of_mem _ hq))
      (fun q hq => hp q (List.mem_cons_of_mem _ hq))
    by_cases h1 : toSec dt1 ≤ toSec t <;> by_cases h2 : toSec t ≤ toSec dt2 <;>
      simp [timerange_loop, hget, hv, ht, hIH, List.filter_cons, entryInRange,
        h1, h2]

/-- C1. The `/leaders/timerange` handler: when both bounds parse and
`lo ≤ hi`, it returns exactly the records of the dataset whose parsed
`start_date` satisfies `lo ≤ start_date ≤ hi` (inclusive at both
ends), in ascending lexicographic order of the key they are stored
under (the composite key); when `hi < lo` or either bound fails to
parse, it fails with `InvalidUsage` (a 400) and returns no records.
Stated for datasets with unique keys whose records all carry a
parseable `start_date`. -/
theorem leaders_timerange_correct (ts1 ts2 : String) (events : Dict Entry)
    (hnd : (events.map Prod.fst).Nodup)
    (hp : ∀ p ∈ events, ∃ v t, dictGet "start_date" p.2 = some v ∧
      ts_parse_val v = some t) :
    (∀ dt1 dt2, ts_parse ts1 = some dt1 → ts_parse ts2 = some dt2 →
      (toSec dt1 ≤ toSec dt2 →
        leaders_timerange ts1 ts2 events = .ok (timerangeSpec dt1 dt2 events)) ∧
      (toSec dt2 < toSec dt1 →
        leaders_timerange ts1 ts2 events = .error .invalidUsage)) ∧
    ((ts_parse ts1 = none ∨ ts_parse ts2 = none) →
      leaders_timerange ts1 ts2 events = .error .invalidUsage) := by
  constructor
  · intro dt1 dt2 h1 h2
    constructor
    · intro hle
      simp only [leaders_timerange, h1, h2]
      rw [if_neg (by omega)]
      have hmap : sortBy strLe (events.map Prod.fst) =
          (sortBy (fun a b : String × Entry => strLe a.1 b.1) events).map
            Prod.fst :=
        (map_sortBy (fun a b : String × Entry => strLe a.1 b.1) strLe
          Prod.fst (fun _ _ => rfl) events).symm
      rw [hmap]
      exact timerange_loop_spec dt1 dt2 events hnd _
        (fun p hq => (mem_sortBy _ p events).mp hq)
        (fun p hq => hp p ((mem_sortBy _ p events).mp hq))
    · intro hlt
      simp only [leaders_timerange, h1, h2]
      rw [if_pos hlt]
  · intro hnone
    rcases hnone with hn | hn
    · cases h2 : ts_parse ts2 <;> simp [leaders_timerange, hn, h2]
    · cases h1 : ts_parse ts1 <;> simp [leaders_timerange, hn, h1]

/-- Witness for C1: an unsorted two-record dataset; the range keeps
only the January record, and a reversed range is rejected. -/
theorem leaders_timerange_correct_witness :
    leaders_timerange "2023-12-31T00:00:00Z" "2024-01-02T00:00:00"
        [("2024-03-05T10:00:00+bob+2",
          [("start_date", Val.vstr "2024-03-05T10:00:00"),
           ("athlete_name", Val.vstr "bob"), ("rank", Val.vint 2)]),
         ("2024-01-01T00:00:00Z+alice+1",
          [("start_date", Val.vstr "2024-01-01T00:00:00Z"),
           ("athlete_name", Val.vstr "alice"), ("rank", Val.vint 1)])] =
      .ok [[("start_date", Val.vstr "2024-01-01T00:00:00Z"),
            ("athlete_name", Val.vstr "alice"), ("rank", Val.vint 1)]] := by
  have h := leaders_timerange_correct "2023-12-31T00:00:00Z"
    "2024-01-02T00:00:00"
    [("2024-03-05T10:00:00+bob+2",
      [("start_date", Val.vstr "2024-03-05T10:00:00"),
       ("athlete_name", Val.vstr "bob"), ("rank", Val.vint 2)]),
     ("2024-01-01T00:00:00Z+alice+1",
      [("start_date", Val.vstr "2024-01-01T00:00:00Z"),
       ("athlete_name", Val.vstr "alice"), ("rank", Val.vint 1)])]
    (by decide)
    (by
      intro p hq
      simp only [List.mem_cons, List.not_mem_nil, or_false] at hq
      rcases hq with rfl | rfl
      · exact ⟨Val.vstr "2024-03-05T10:00:00", ⟨2024, 3, 5, 10, 0, 0⟩,
          by decide, by decide⟩
      · exact ⟨Val.vstr "2024-01-01T00:00:00Z", ⟨2024, 1, 1, 0, 0, 0⟩,
          by decide, by decide⟩)
  have heq := (h.1 ⟨2023, 12, 31, 0, 0, 0⟩ ⟨2024, 1, 2, 0, 0, 0⟩
    (by decide) (by decide)).1 (by decide)
  rw [heq]
  decide
